import Mathlib

/-!
Verification development for the memories-store maintenance scripts.

The definitions below are shallow embeddings of the Python sources:
* `check_real_memories.py` / `cleanup_invalid_memories.py` — the GUID
  regular expression `^[0-9a-fA-F]{8}-[0-9a-fA-F]{4}-[0-9a-fA-F]{4}-[0-9a-fA-F]{4}-[0-9a-fA-F]{12}$`
  applied with `re.match`, and the SQL `DELETE ... WHERE id NOT LIKE
  '________-____-____-____-____________' OR id LIKE '%/%' OR id LIKE '%\%'`.
* `inspect_backup.py` — `json.loads` inside `try/except` and the
  `'fields' in data` introspection.
* `agent_search_replace_regex.py` (`MemoriesManager`) — markdown-file
  backed memories with `.md`-stripping name normalisation.
-/

namespace MemStore

/-- A row of the `memories` table: `id, scope, content, json_data`. -/
structure Row where
  id : String
  scope : String
  content : String
  json_data : String
deriving DecidableEq, Repr

/-- The store is the list of rows of the `memories` table. -/
abbrev Store := List Row

/-- `[0-9a-fA-F]` — one hexadecimal digit, either case. -/
def isHexDigit (c : Char) : Bool :=
  ('0' ≤ c && c ≤ '9') || ('a' ≤ c && c ≤ 'f') || ('A' ≤ c && c ≤ 'F')

/-- Consume exactly `n` hex digits (`[0-9a-fA-F]{n}`), returning the rest. -/
def consumeHex : Nat → List Char → Option (List Char)
  | 0, cs => some cs
  | _ + 1, [] => none
  | n + 1, c :: cs => if isHexDigit c then consumeHex n cs else none

/-- Consume a literal `-`, returning the rest. -/
def consumeDash : List Char → Option (List Char)
  | '-' :: cs => some cs
  | _ => none

/-- Sequentially match the five regex groups `{8}-{4}-{4}-{4}-{12}` from the
start of the input (`re.match` anchors at the start), returning the
unconsumed suffix. -/
def guidGroups (cs : List Char) : Option (List Char) :=
  (consumeHex 8 cs).bind fun r1 =>
  (consumeDash r1).bind fun r2 =>
  (consumeHex 4 r2).bind fun r3 =>
  (consumeDash r3).bind fun r4 =>
  (consumeHex 4 r4).bind fun r5 =>
  (consumeDash r5).bind fun r6 =>
  (consumeHex 4 r6).bind fun r7 =>
  (consumeDash r7).bind fun r8 =>
  consumeHex 12 r8

/-- Python's `$` (outside MULTILINE): accepts the end of the string or the
position just before a single trailing newline. -/
def dollarAccepts (rest : List Char) : Bool :=
  rest = [] || rest = ['\n']

/-- `guid_pattern.match(s)` is truthy: the anchored groups match a prefix of
`s` and `$` accepts the remaining suffix. -/
def reMatchGuid (s : String) : Bool :=
  match guidGroups s.toList with
  | some rest => dollarAccepts rest
  | none => false

/-- Classification outcome of the Identity Validator. -/
inductive IdClass where
  | Valid
  | Invalid
deriving DecidableEq, Repr

/-- `classify(id)`: `Valid` iff `guid_pattern.match(id)` is truthy. -/
def classify (s : String) : IdClass :=
  if reMatchGuid s then IdClass.Valid else IdClass.Invalid

/-- The spec's canonical-pattern reading: a group of exactly `n` hex digits. -/
def hexGroup (n : Nat) (g : List Char) : Prop :=
  g.length = n ∧ ∀ c ∈ g, isHexDigit c = true

/-- The spec's canonical pattern, stated from its words: exactly 36
characters — 8, 4, 4, 4, 12 hex digits joined by single hyphens. -/
def specGuid (cs : List Char) : Prop :=
  ∃ g1 g2 g3 g4 g5, hexGroup 8 g1 ∧ hexGroup 4 g2 ∧ hexGroup 4 g3 ∧
    hexGroup 4 g4 ∧ hexGroup 12 g5 ∧
    cs = g1 ++ ['-'] ++ g2 ++ ['-'] ++ g3 ++ ['-'] ++ g4 ++ ['-'] ++ g5

/-- The canonical pattern followed by one trailing newline (the extra
strings accepted by Python's `$`). -/
def specGuidNl (cs : List Char) : Prop :=
  ∃ cs0, cs = cs0 ++ ['\n'] ∧ specGuid cs0

/-- One SQL `LIKE` pattern character position: `_` matches any single
character, anything else matches itself (the only literal used is `-`,
which is unaffected by LIKE's ASCII case folding). -/
def likeMatches : List Char → List Char → Bool
  | [], [] => true
  | [], _ :: _ => false
  | _ :: _, [] => false
  | p :: ps, c :: cs => (p = '_' || p = c) && likeMatches ps cs

/-- The pattern of `id NOT LIKE '________-____-____-____-____________'`. -/
def guidLikePattern : List Char :=
  "________-____-____-____-____________".toList

/-- The SQL `WHERE` clause of the cleanup DELETE:
`id NOT LIKE '________-____-____-____-____________' OR id LIKE '%/%' OR
id LIKE '%\%'` (the Python source's `'%\\%'` denotes the SQL pattern
`'%\%'`; without an `ESCAPE` clause the backslash is an ordinary
character, so the clause tests for a contained backslash). -/
def delPred (idv : String) : Bool :=
  !(likeMatches guidLikePattern idv.toList) ||
    idv.toList.contains '/' || idv.toList.contains '\\'

/-- `find_invalid_ids()`: ids of stored rows rejected by
`guid_pattern.match` (the `if not guid_pattern.match(id_val)` loop). -/
def find_invalid_ids (store : Store) : List String :=
  (store.map (·.id)).filter (fun i => !reMatchGuid i)

/-- `plan_purge()`: computes the invalid ids and their count by SELECT
only; the store is returned unchanged (the script mutates nothing while
planning). -/
def plan_purge (store : Store) : (List String × Nat) × Store :=
  ((find_invalid_ids store, (find_invalid_ids store).length), store)

/-- `commit_purge(plan)`: the confirmed DELETE.  The script's DELETE does
not consult the planned candidate set — it re-runs its own `LIKE`-based
predicate — so the `plan` argument does not influence the result.  Returns
`cursor.rowcount` (rows deleted) and the resulting store. -/
def commit_purge (plan : List String) (store : Store) : Nat × Store :=
  ((store.filter (fun r => delPred r.id)).length,
    store.filter (fun r => !delPred r.id))

/-- `get(id)`: the stored row with the given id, if any. -/
def get (i : String) (store : Store) : Option Row :=
  store.find? (fun r => r.id == i)

/-- `list(scope?)`: all rows, or the rows with the given scope. -/
def listRecords (scopeFilter : Option String) (store : Store) : Store :=
  match scopeFilter with
  | none => store
  | some sc => store.filter (fun r => r.scope == sc)

/-- `SELECT scope, COUNT(*) FROM memories GROUP BY scope`: one entry per
distinct scope, with the number of rows carrying it. -/
def count_by_scope (store : Store) : List (String × Nat) :=
  ((store.map (·.scope)).dedup).map
    (fun sc => (sc, (store.filter (fun r => r.scope == sc)).length))

end MemStore

namespace MemFiles

/-- `name.replace(".md", "")`: delete every (leftmost, non-overlapping)
occurrence of `.md`, continuing after each deleted occurrence. -/
def stripMd : List Char → List Char
  | '.' :: 'm' :: 'd' :: rest => stripMd rest
  | c :: rest => c :: stripMd rest
  | [] => []

/-- `_get_memory_file_path`: strip all `.md` from the name, then append
`.md`. -/
def memory_file_name (name : String) : String :=
  String.mk (stripMd name.toList) ++ ".md"

/-- The memories directory: file name ↦ file content. -/
abbrev Fs := List (String × String)

/-- Path existence / file read. -/
def fsLookup (k : String) (fs : Fs) : Option String :=
  (fs.find? (fun p => p.1 == k)).map (·.2)

/-- Writing a file (create or overwrite). -/
def fsWrite (k v : String) (fs : Fs) : Fs :=
  (k, v) :: fs.filter (fun p => p.1 != k)

/-- `Path.unlink` on an existing file. -/
def fsErase (k : String) (fs : Fs) : Fs :=
  fs.filter (fun p => p.1 != k)

/-- `load_memory`: if the memory file does not exist, return the
"not found" message; otherwise return the file's content. -/
def load_memory (name : String) (fs : Fs) : String :=
  match fsLookup (memory_file_name name) fs with
  | some content => content
  | none =>
    "Memory file " ++ name ++
      " not found, consider creating it with the `write_memory` tool if you need it."

/-- `save_memory`: write the content to the memory file and confirm. -/
def save_memory (name content : String) (fs : Fs) : String × Fs :=
  ("Memory " ++ name ++ " written.", fsWrite (memory_file_name name) content fs)

/-- `delete_memory`: `unlink` the memory file — raises `FileNotFoundError`
when the file is absent, otherwise removes it and confirms. -/
def delete_memory (name : String) (fs : Fs) : Except String (String × Fs) :=
  match fsLookup (memory_file_name name) fs with
  | none => Except.error ("FileNotFoundError: " ++ memory_file_name name)
  | some _ =>
    Except.ok ("Memory " ++ name ++ " deleted.", fsErase (memory_file_name name) fs)

/-- The filesystem after a `delete_memory` call: unchanged when the call
raised, otherwise the post-unlink state. -/
def afterDelete (name : String) (fs : Fs) : Fs :=
  match delete_memory name fs with
  | Except.ok (_, fs2) => fs2
  | Except.error _ => fs

end MemFiles

namespace MemJson

/-- The values produced by `json.loads`.  Numeric literals are kept as
their source text (no floating-point arithmetic is ever performed on
them in the scripts). -/
inductive Json where
  | null
  | bool (b : Bool)
  | num (lit : String)
  | str (s : String)
  | arr (elems : List Json)
  | obj (members : List (String × Json))

/-- `'fields' == x` for a Python value `x`: true only for the equal str. -/
def isFieldsStr : Json → Bool
  | Json.str s => s == "fields"
  | _ => false

/-- Substring test (`pat in s` for Python strings). -/
def hasSubstr (pat : List Char) : List Char → Bool
  | [] => pat.isEmpty
  | c :: cs => pat.isPrefixOf (c :: cs) || hasSubstr pat cs

/-- JSON insignificant whitespace: space, tab, newline, carriage return. -/
def skipWs : List Char → List Char
  | c :: cs =>
    if c = ' ' || c = '\t' || c = '\n' || c = '\r' then skipWs cs else c :: cs
  | [] => []

/-- Decode a single-character escape (`\"`, `\\`, `\/`, `\b`, `\f`, `\n`,
`\r`, `\t`). -/
def escChar (c : Char) : Option Char :=
  if c = '"' then some '"'
  else if c = '\\' then some '\\'
  else if c = '/' then some '/'
  else if c = 'b' then some (Char.ofNat 8)
  else if c = 'f' then some (Char.ofNat 12)
  else if c = 'n' then some '\n'
  else if c = 'r' then some '\r'
  else if c = 't' then some '\t'
  else none

/-- Value of one hex digit. -/
def hexVal (c : Char) : Nat :=
  if '0' ≤ c && c ≤ '9' then c.toNat - '0'.toNat
  else if 'a' ≤ c && c ≤ 'f' then c.toNat - 'a'.toNat + 10
  else c.toNat - 'A'.toNat + 10

/-- Parse the body of a JSON string after the opening quote: returns the
decoded characters and the input after the closing quote.  Raw control
characters are rejected (`strict=True`); `\uXXXX` decodes to the code
point (code points outside Lean's `Char` range degrade to the default
character — no script input exercises them). -/
def parseStringBody : List Char → Option (List Char × List Char)
  | [] => none
  | '"' :: rest => some ([], rest)
  | '\\' :: 'u' :: h1 :: h2 :: h3 :: h4 :: rest =>
    if MemStore.isHexDigit h1 && MemStore.isHexDigit h2 &&
        MemStore.isHexDigit h3 && MemStore.isHexDigit h4 then
      (parseStringBody rest).map fun p =>
        (Char.ofNat (((hexVal h1 * 16 + hexVal h2) * 16 + hexVal h3) * 16 + hexVal h4) :: p.1,
          p.2)
    else none
  | '\\' :: e :: rest =>
    match escChar e with
    | some c => (parseStringBody rest).map fun p => (c :: p.1, p.2)
    | none => none
  | c :: rest =>
    if c.toNat < 32 then none
    else (parseStringBody rest).map fun p => (c :: p.1, p.2)

/-- One decimal digit. -/
def isDigit (c : Char) : Bool := '0' ≤ c && c ≤ '9'

/-- Zero or more digits: the digit run and the rest. -/
def digitsMany : List Char → List Char × List Char
  | c :: rest =>
    if isDigit c then
      let p := digitsMany rest
      (c :: p.1, p.2)
    else ([], c :: rest)
  | [] => ([], [])

/-- One or more digits. -/
def digits1 : List Char → Option (List Char × List Char)
  | c :: rest =>
    if isDigit c then
      let p := digitsMany rest
      some (c :: p.1, p.2)
    else none
  | [] => none

/-- JSON integer part: `0` alone, or a nonzero digit followed by digits
(leading zeros are not part of the grammar; a stray following digit is
left unconsumed and rejected as trailing input by the caller). -/
def parseIntPart : List Char → Option (List Char × List Char)
  | '0' :: rest => some (['0'], rest)
  | c :: rest =>
    if isDigit c then
      let p := digitsMany rest
      some (c :: p.1, p.2)
    else none
  | [] => none

/-- Optional fraction `.digits`; when the dot is not followed by a digit
nothing is consumed (the dot is then rejected downstream, matching the
parse error). -/
def parseFrac (cs : List Char) : List Char × List Char :=
  match cs with
  | '.' :: rest =>
    match digits1 rest with
    | some (ds, r) => ('.' :: ds, r)
    | none => ([], '.' :: rest)
  | _ => ([], cs)

/-- Optional exponent `[eE][+-]?digits`, with the same
consume-nothing-on-malformed convention as `parseFrac`. -/
def parseExp (cs : List Char) : List Char × List Char :=
  match cs with
  | e :: rest =>
    if e = 'e' || e = 'E' then
      match rest with
      | s :: rest2 =>
        if s = '+' || s = '-' then
          match digits1 rest2 with
          | some (ds, r) => (e :: s :: ds, r)
          | none => ([], e :: rest)
        else
          match digits1 rest with
          | some (ds, r) => (e :: ds, r)
          | none => ([], e :: rest)
      | [] => ([], [e])
    else ([], e :: rest)
  | [] => ([], [])

/-- Assemble a numeric literal from its integer part and the rest. -/
def parseNumTail (ip : List Char) (r : List Char) : String × List Char :=
  let f := parseFrac r
  let e := parseExp f.2
  (String.mk (ip ++ f.1 ++ e.1), e.2)

/-- A JSON number (Python additionally accepts `NaN`/`Infinity`, handled
as keyword tokens by the caller). -/
def parseNumber : List Char → Option (String × List Char)
  | '-' :: rest =>
    (parseIntPart rest).map fun p => parseNumTail ('-' :: p.1) p.2
  | cs =>
    (parseIntPart cs).map fun p => parseNumTail p.1 p.2

/-- `dict` insertion: an existing key keeps its position and takes the new
value, a new key is appended. -/
def objInsert : List (String × Json) → String → Json → List (String × Json)
  | [], k, v => [(k, v)]
  | (k0, v0) :: rest, k, v =>
    if k0 = k then (k0, v) :: rest else (k0, v0) :: objInsert rest k v

/-- Fold parsed members into a `dict` the way Python builds it. -/
def objOfMembers (ms : List (String × Json)) : List (String × Json) :=
  ms.foldl (fun acc kv => objInsert acc kv.1 kv.2) []

mutual

/-- Recursive-descent JSON value parser (fuel-indexed; the fuel passed by
`json_loads` is generous for every input). -/
def parseVal : Nat → List Char → Option (Json × List Char)
  | 0, _ => none
  | fuel + 1, cs =>
    match skipWs cs with
    | 'n' :: 'u' :: 'l' :: 'l' :: rest => some (Json.null, rest)
    | 't' :: 'r' :: 'u' :: 'e' :: rest => some (Json.bool true, rest)
    | 'f' :: 'a' :: 'l' :: 's' :: 'e' :: rest => some (Json.bool false, rest)
    | 'N' :: 'a' :: 'N' :: rest => some (Json.num "NaN", rest)
    | 'I' :: 'n' :: 'f' :: 'i' :: 'n' :: 'i' :: 't' :: 'y' :: rest =>
      some (Json.num "Infinity", rest)
    | '-' :: 'I' :: 'n' :: 'f' :: 'i' :: 'n' :: 'i' :: 't' :: 'y' :: rest =>
      some (Json.num "-Infinity", rest)
    | '"' :: rest =>
      (parseStringBody rest).map fun p => (Json.str (String.mk p.1), p.2)
    | '[' :: rest => parseArr fuel rest
    | '{' :: rest => parseObj fuel rest
    | cs2 => (parseNumber cs2).map fun p => (Json.num p.1, p.2)

/-- Array parser, positioned after `[`. -/
def parseArr : Nat → List Char → Option (Json × List Char)
  | 0, _ => none
  | fuel + 1, cs =>
    match skipWs cs with
    | ']' :: rest => some (Json.arr [], rest)
    | cs2 =>
      (parseVal fuel cs2).bind fun p =>
        (parseArrTail fuel p.2).map fun q => (Json.arr (p.1 :: q.1), q.2)

/-- Array continuation: `, value` repeated until `]`. -/
def parseArrTail : Nat → List Char → Option (List Json × List Char)
  | 0, _ => none
  | fuel + 1, cs =>
    match skipWs cs with
    | ']' :: rest => some ([], rest)
    | ',' :: rest =>
      (parseVal fuel rest).bind fun p =>
        (parseArrTail fuel p.2).map fun q => (p.1 :: q.1, q.2)
    | _ => none

/-- Object parser, positioned after `{`. -/
def parseObj : Nat → List Char → Option (Json × List Char)
  | 0, _ => none
  | fuel + 1, cs =>
    match skipWs cs with
    | '}' :: rest => some (Json.obj [], rest)
    | '"' :: rest =>
      (parseStringBody rest).bind fun kp =>
        (parseMemVal fuel (String.mk kp.1) kp.2).bind fun mp =>
          (parseObjTail fuel mp.2).map fun q =>
            (Json.obj (objOfMembers (mp.1 :: q.1)), q.2)
    | _ => none

/-- One member's `: value` after its key string. -/
def parseMemVal : Nat → String → List Char → Option ((String × Json) × List Char)
  | 0, _, _ => none
  | fuel + 1, k, cs =>
    match skipWs cs with
    | ':' :: rest => (parseVal fuel rest).map fun p => ((k, p.1), p.2)
    | _ => none

/-- Object continuation: `, "key": value` repeated until `}`. -/
def parseObjTail : Nat → List Char → Option (List (String × Json) × List Char)
  | 0, _ => none
  | fuel + 1, cs =>
    match skipWs cs with
    | '}' :: rest => some ([], rest)
    | ',' :: rest =>
      match skipWs rest with
      | '"' :: rest2 =>
        (parseStringBody rest2).bind fun kp =>
          (parseMemVal fuel (String.mk kp.1) kp.2).bind fun mp =>
            (parseObjTail fuel mp.2).map fun q => (mp.1 :: q.1, q.2)
      | _ => none
    | _ => none

end

/-- `json.loads`: parse one value and insist nothing but whitespace
follows; `none` models the raised `JSONDecodeError`. -/
def json_loads (s : String) : Option Json :=
  match parseVal (2 * s.length + 8) s.toList with
  | some (v, rest) => if skipWs rest = [] then some v else none
  | none => none

/-- `'fields' in data`: key test on a dict, membership on a list,
substring test on a str; `TypeError` (modelled as `error`) on the
non-container values. -/
def pyContainsFields : Json → Except Unit Bool
  | Json.obj kvs => Except.ok (kvs.any fun kv => kv.1 == "fields")
  | Json.arr xs => Except.ok (xs.any isFieldsStr)
  | Json.str s => Except.ok (hasSubstr "fields".toList s.toList)
  | _ => Except.error ()

/-- `data['fields']`: dict indexing; `TypeError` on a list or str indexed
by a string key, and on the other values. -/
def pyIndexFields : Json → Except Unit Json
  | Json.obj kvs =>
    match kvs.find? (fun kv => kv.1 == "fields") with
    | some kv => Except.ok kv.2
    | none => Except.error ()
  | _ => Except.error ()

/-- `for field_name in fields`: the iterated values — keys of a dict,
elements of a list, characters of a str; `TypeError` otherwise. -/
def pyIterKeys : Json → Except Unit (List Json)
  | Json.obj kvs => Except.ok (kvs.map fun kv => Json.str kv.1)
  | Json.arr xs => Except.ok xs
  | Json.str s => Except.ok (s.toList.map fun c => Json.str (String.mk [c]))
  | _ => Except.error ()

/-- The `try/except` block of the record display: the field names listed
(empty when nothing was shown) and whether the bare `except` caught an
exception and printed "Could not parse JSON data". -/
def inspect_json (raw : String) : List Json × Bool :=
  match json_loads raw with
  | none => ([], true)
  | some data =>
    match pyContainsFields data with
    | Except.error _ => ([], true)
    | Except.ok false => ([], false)
    | Except.ok true =>
      match pyIndexFields data with
      | Except.error _ => ([], true)
      | Except.ok fv =>
        match pyIterKeys fv with
        | Except.error _ => ([], true)
        | Except.ok names => (names, false)

/-- Displaying one record: scope and content are emitted before the JSON
payload is touched, so they are produced whatever `inspect_json` reports. -/
def inspect_record (r : MemStore.Row) : String × String × (List Json × Bool) :=
  (r.scope, r.content, inspect_json r.json_data)

end MemJson

namespace MemStore

/-- A backup snapshot: the rows of one exported `memories` table. -/
abbrev Snapshot := List Row

/-- Occurrences of an id across snapshots, numbering the snapshots from
`k0`: each matching row contributes its scope and its snapshot's index. -/
def occAux (i : String) : Nat → List Snapshot → List (String × Nat)
  | _, [] => []
  | k, sn :: rest =>
    (sn.filter (fun r => r.id == i)).map (fun r => (r.scope, k)) ++
      occAux i (k + 1) rest

/-- All occurrences of an id, with scope and snapshot-of-origin. -/
def occurrences (i : String) (snaps : List Snapshot) : List (String × Nat) :=
  occAux i 0 snaps

/-- Number of snapshots in which an id occurs. -/
def snapsContaining (i : String) (snaps : List Snapshot) : Nat :=
  (snaps.filter (fun sn => sn.any (fun r => r.id == i))).length

/-- Every id occurring in any snapshot (deduplicated). -/
def allIds (snaps : List Snapshot) : List String :=
  ((snaps.map (fun sn => sn.map (·.id))).flatten).dedup

/-- Modelled from the spec: the multi-snapshot duplicate report
`find_duplicate_ids(snapshots...) -> mapping(id -> list of (scope,
source_snapshot))` of §4.5 is not present under `src/` —
`check_memory_ids.py` scans a single backup table and overwrites its
`backup_ids` map — so the merge-time report is taken from the spec's
words: every identifier occurring in more than one snapshot, mapped to
the list of all its occurrences with scope and snapshot-of-origin. -/
def find_duplicate_ids (snaps : List Snapshot) :
    List (String × List (String × Nat)) :=
  ((allIds snaps).filter (fun i => decide (2 ≤ snapsContaining i snaps))).map
    (fun i => (i, occurrences i snaps))

end MemStore

namespace MemFiles

/-- Whether an `Except` result is a raised exception. -/
def isError {α : Type} : Except String α → Bool
  | Except.error _ => true
  | Except.ok _ => false

end MemFiles

namespace MemStore

theorem consumeDash_eq_some_iff (cs rest : List Char) :
    consumeDash cs = some rest ↔ cs = '-' :: rest := by
  cases cs with
  | nil => simp [consumeDash]
  | cons c cs' =>
    by_cases hc : c = '-'
    · subst hc
      simp [consumeDash]
    · constructor
      · intro h
        exact absurd h (by simp [consumeDash, hc])
      · intro h
        cases h
        exact absurd rfl hc

theorem consumeHex_eq_some_iff (n : Nat) (cs rest : List Char) :
    consumeHex n cs = some rest ↔
      ∃ g, g.length = n ∧ (∀ c ∈ g, isHexDigit c = true) ∧ cs = g ++ rest := by
  induction n generalizing cs with
  | zero =>
    simp only [consumeHex, Option.some_inj]
    constructor
    · rintro rfl
      exact ⟨[], rfl, by simp, rfl⟩
    · rintro ⟨g, hg, -, rfl⟩
      rw [List.length_eq_zero.mp hg]
      rfl
  | succ n ih =>
    cases cs with
    | nil =>
      simp only [consumeHex]
      constructor
      · intro h
        exact absurd h (by simp)
      · rintro ⟨g, hg, -, heq⟩
        rcases List.append_eq_nil.mp heq.symm with ⟨rfl, -⟩
        simp at hg
    | cons c cs' =>
      by_cases hc : isHexDigit c
      · rw [show consumeHex (n + 1) (c :: cs') = consumeHex n cs' by
          simp [consumeHex, hc], ih]
        constructor
        · rintro ⟨g, hg, hhex, rfl⟩
          refine ⟨c :: g, by simp [hg], ?_, rfl⟩
          intro x hx
          rcases List.mem_cons.mp hx with rfl | hx'
          · exact hc
          · exact hhex x hx'
        · rintro ⟨g, hg, hhex, heq⟩
          cases g with
          | nil => simp at hg
          | cons a g' =>
            rcases List.cons_eq_cons.mp heq with ⟨rfl, rfl⟩
            exact ⟨g', by simpa using hg, fun x hx => hhex x (List.mem_cons_of_mem _ hx), rfl⟩
      · rw [show consumeHex (n + 1) (c :: cs') = none by simp [consumeHex, hc]]
        constructor
        · intro h
          exact absurd h (by simp)
        · rintro ⟨g, hg, hhex, heq⟩
          cases g with
          | nil => simp at hg
          | cons a g' =>
            rcases List.cons_eq_cons.mp heq with ⟨rfl, -⟩
            exact absurd (hhex _ (List.mem_cons_self _ _)) (by simpa using hc)

theorem guidGroups_eq_some_iff (cs rest : List Char) :
    guidGroups cs = some rest ↔
      ∃ g1 g2 g3 g4 g5, hexGroup 8 g1 ∧ hexGroup 4 g2 ∧ hexGroup 4 g3 ∧
        hexGroup 4 g4 ∧ hexGroup 12 g5 ∧
        cs = g1 ++ ['-'] ++ g2 ++ ['-'] ++ g3 ++ ['-'] ++ g4 ++ ['-'] ++ g5 ++ rest := by
  unfold guidGroups hexGroup
  simp only [Option.bind_eq_some, consumeHex_eq_some_iff, consumeDash_eq_some_iff]
  constructor
  · rintro ⟨r1, ⟨g1, h1l, h1h, rfl⟩, r2, rfl, r3, ⟨g2, h2l, h2h, rfl⟩, r4, rfl,
      r5, ⟨g3, h3l, h3h, rfl⟩, r6, rfl, r7, ⟨g4, h4l, h4h, rfl⟩, r8, rfl,
      g5, h5l, h5h, rfl⟩
    exact ⟨g1, g2, g3, g4, g5, ⟨h1l, h1h⟩, ⟨h2l, h2h⟩, ⟨h3l, h3h⟩, ⟨h4l, h4h⟩,
      ⟨h5l, h5h⟩, by simp⟩
  · rintro ⟨g1, g2, g3, g4, g5, ⟨h1l, h1h⟩, ⟨h2l, h2h⟩, ⟨h3l, h3h⟩, ⟨h4l, h4h⟩,
      ⟨h5l, h5h⟩, rfl⟩
    refine ⟨'-' :: (g2 ++ ['-'] ++ g3 ++ ['-'] ++ g4 ++ ['-'] ++ g5 ++ rest),
      ⟨g1, h1l, h1h, by simp⟩,
      g2 ++ ['-'] ++ g3 ++ ['-'] ++ g4 ++ ['-'] ++ g5 ++ rest, rfl,
      '-' :: (g3 ++ ['-'] ++ g4 ++ ['-'] ++ g5 ++ rest),
      ⟨g2, h2l, h2h, by simp⟩,
      g3 ++ ['-'] ++ g4 ++ ['-'] ++ g5 ++ rest, rfl,
      '-' :: (g4 ++ ['-'] ++ g5 ++ rest),
      ⟨g3, h3l, h3h, by simp⟩,
      g4 ++ ['-'] ++ g5 ++ rest, rfl,
      '-' :: (g5 ++ rest),
      ⟨g4, h4l, h4h, by simp⟩,
      g5 ++ rest, rfl,
      g5, h5l, h5h, rfl⟩

theorem specGuid_iff_groups (cs : List Char) :
    specGuid cs ↔ guidGroups cs = some [] := by
  rw [guidGroups_eq_some_iff]
  unfold specGuid
  simp

theorem specGuidNl_iff_groups (cs : List Char) :
    specGuidNl cs ↔ guidGroups cs = some ['\n'] := by
  rw [guidGroups_eq_some_iff]
  unfold specGuidNl
  constructor
  · rintro ⟨cs0, rfl, h⟩
    unfold specGuid at h
    rcases h with ⟨g1, g2, g3, g4, g5, h1, h2, h3, h4, h5, rfl⟩
    exact ⟨g1, g2, g3, g4, g5, h1, h2, h3, h4, h5, by simp⟩
  · rintro ⟨g1, g2, g3, g4, g5, h1, h2, h3, h4, h5, rfl⟩
    refine ⟨g1 ++ ['-'] ++ g2 ++ ['-'] ++ g3 ++ ['-'] ++ g4 ++ ['-'] ++ g5,
      by simp, ?_⟩
    unfold specGuid
    exact ⟨g1, g2, g3, g4, g5, h1, h2, h3, h4, h5, by simp⟩

theorem classify_eq_Valid_iff (s : String) :
    classify s = IdClass.Valid ↔ specGuid s.toList ∨ specGuidNl s.toList := by
  rw [specGuid_iff_groups, specGuidNl_iff_groups]
  unfold classify reMatchGuid
  rcases hg : guidGroups s.toList with - | rest
  · simp [hg]
  · by_cases h0 : rest = []
    · subst h0
      simp [hg, dollarAccepts]
    · by_cases h1 : rest = ['\n']
      · subst h1
        simp [hg, dollarAccepts]
      · simp [hg, dollarAccepts, h0, h1]

theorem specGuid_length {cs : List Char} (h : specGuid cs) : cs.length = 36 := by
  obtain ⟨g1, g2, g3, g4, g5, ⟨h1, -⟩, ⟨h2, -⟩, ⟨h3, -⟩, ⟨h4, -⟩, ⟨h5, -⟩, rfl⟩ := h
  simp [h1, h2, h3, h4, h5]

theorem specGuid_char_mem {cs : List Char} (h : specGuid cs) {c : Char}
    (hc : c ∈ cs) : isHexDigit c = true ∨ c = '-' := by
  obtain ⟨g1, g2, g3, g4, g5, ⟨-, h1⟩, ⟨-, h2⟩, ⟨-, h3⟩, ⟨-, h4⟩, ⟨-, h5⟩, rfl⟩ := h
  simp only [List.append_assoc, List.mem_append, List.mem_singleton] at hc
  rcases hc with h | h | h | h | h | h | h | h | h
  · exact Or.inl (h1 c h)
  · exact Or.inr h
  · exact Or.inl (h2 c h)
  · exact Or.inr h
  · exact Or.inl (h3 c h)
  · exact Or.inr h
  · exact Or.inl (h4 c h)
  · exact Or.inr h
  · exact Or.inl (h5 c h)

/-- C2 (amended): `classify s = Valid` iff `s` is exactly the 8-4-4-4-12
hex-hyphen pattern, or that pattern followed by one trailing newline
(Python's `re.match` with `$` accepts the latter); and any string
containing `/` or `\` is classified `Invalid`. -/
theorem classify_characterization (s : String) :
    (classify s = IdClass.Valid ↔ specGuid s.toList ∨ specGuidNl s.toList) ∧
    (('/' ∈ s.toList ∨ '\\' ∈ s.toList) → classify s = IdClass.Invalid) := by
  refine ⟨classify_eq_Valid_iff s, ?_⟩
  intro hmem
  have hslash : ∀ c : Char, c = '/' ∨ c = '\\' → ¬(isHexDigit c = true ∨ c = '-') := by
    rintro c (rfl | rfl) <;> decide
  cases hcl : classify s with
  | Invalid => rfl
  | Valid =>
    exfalso
    rcases (classify_eq_Valid_iff s).mp hcl with hp | hp
    · rcases hmem with hm | hm
      · exact hslash '/' (Or.inl rfl) (specGuid_char_mem hp hm)
      · exact hslash '\\' (Or.inr rfl) (specGuid_char_mem hp hm)
    · obtain ⟨cs0, hcs, hp0⟩ := hp
      rw [hcs] at hmem
      rcases hmem with hm | hm <;>
        rcases List.mem_append.mp hm with hm' | hm'
      · exact hslash '/' (Or.inl rfl) (specGuid_char_mem hp0 hm')
      · exact absurd (List.mem_singleton.mp hm') (by decide)
      · exact hslash '\\' (Or.inr rfl) (specGuid_char_mem hp0 hm')
      · exact absurd (List.mem_singleton.mp hm') (by decide)

/-- C2 witness: a path-like id containing `/` is classified `Invalid`. -/
theorem classify_characterization_witness :
    ('/' ∈ ("C:/proj/file.py").toList ∨ '\\' ∈ ("C:/proj/file.py").toList) ∧
    classify "C:/proj/file.py" = IdClass.Invalid :=
  ⟨Or.inl (by decide),
    (classify_characterization "C:/proj/file.py").2 (Or.inl (by decide))⟩

/-- C2 counterexample: a canonical id followed by a trailing newline is a
string "with extra trailing characters" (37 characters, not matching the
exact 36-character pattern), yet `classify` returns `Valid`, because
Python's `$` also matches just before a terminal newline. -/
theorem classify_trailing_newline_counterexample :
    classify "a1b2c3d4-e5f6-7890-abcd-ef1234567890\n" = IdClass.Valid ∧
    ¬ specGuid ("a1b2c3d4-e5f6-7890-abcd-ef1234567890\n").toList ∧
    ("a1b2c3d4-e5f6-7890-abcd-ef1234567890\n").toList.length = 37 := by
  refine ⟨by decide, ?_, by decide⟩
  intro h
  have h36 := specGuid_length h
  have h37 : ("a1b2c3d4-e5f6-7890-abcd-ef1234567890\n").toList.length = 37 := by decide
  omega

/-- C1: the cleanup script's own find step classifies
`gggggggg-gggg-gggg-gggg-gggggggggggg` as invalid (non-hex characters),
but the DELETE's `LIKE` shape — whose `_` wildcard accepts any character
— keeps it, so after the purge `find_invalid_ids` is not empty; and a
record whose id is a canonical GUID plus a trailing newline is classified
`Valid` yet matches the DELETE predicate and is destroyed. -/
theorem cleanup_delete_like_mismatch :
    classify "gggggggg-gggg-gggg-gggg-gggggggggggg" = IdClass.Invalid ∧
    find_invalid_ids [⟨"gggggggg-gggg-gggg-gggg-gggggggggggg", "Note", "x", ""⟩] =
      ["gggggggg-gggg-gggg-gggg-gggggggggggg"] ∧
    commit_purge
      (find_invalid_ids [⟨"gggggggg-gggg-gggg-gggg-gggggggggggg", "Note", "x", ""⟩])
      [⟨"gggggggg-gggg-gggg-gggg-gggggggggggg", "Note", "x", ""⟩] =
      (0, [⟨"gggggggg-gggg-gggg-gggg-gggggggggggg", "Note", "x", ""⟩]) ∧
    find_invalid_ids
      (commit_purge
        (find_invalid_ids [⟨"gggggggg-gggg-gggg-gggg-gggggggggggg", "Note", "x", ""⟩])
        [⟨"gggggggg-gggg-gggg-gggg-gggggggggggg", "Note", "x", ""⟩]).2 ≠ [] ∧
    classify "a1b2c3d4-e5f6-7890-abcd-ef1234567890\n" = IdClass.Valid ∧
    delPred "a1b2c3d4-e5f6-7890-abcd-ef1234567890\n" = true := by
  refine ⟨by decide, by decide, by decide, by decide, by decide, by decide⟩

/-- C3 counterexample: with an empty (stale) plan and a store holding the
invalid id `a/b`, the candidate set differs from the current invalid set,
yet `commit_purge` does not fail — it deletes the record and reports
count 1. -/
theorem commit_purge_ignores_stale_plan :
    find_invalid_ids [⟨"a/b", "Note", "y", ""⟩] = ["a/b"] ∧
    ([] : List String) ≠ find_invalid_ids [⟨"a/b", "Note", "y", ""⟩] ∧
    commit_purge [] [⟨"a/b", "Note", "y", ""⟩] = (1, []) := by
  refine ⟨by decide, by decide, by decide⟩

theorem length_filter_pos_neg {α : Type} (p : α → Bool) (l : List α) :
    (l.filter p).length + (l.filter (fun a => !p a)).length = l.length := by
  induction l with
  | nil => rfl
  | cons a t ih =>
    by_cases h : p a
    · simp [List.filter_cons, h]
      omega
    · simp [List.filter_cons, h]
      omega

/-- C3 (amended): `commit_purge` performs no staleness re-check and never
fails: the plan argument does not influence the outcome, the deleted
count plus the surviving rows always account for the whole store, and the
rows that survive are exactly those whose id passes the SQL `LIKE`-shape
predicate (not the regex-based invalid set of the plan). -/
theorem commit_purge_unconditional (plan1 plan2 : List String) (store : Store) :
    commit_purge plan1 store = commit_purge plan2 store ∧
    (commit_purge plan1 store).1 + (commit_purge plan1 store).2.length = store.length ∧
    ∀ r, r ∈ (commit_purge plan1 store).2 ↔ r ∈ store ∧ delPred r.id = false := by
  refine ⟨rfl, length_filter_pos_neg _ store, ?_⟩
  intro r
  simp [commit_purge, List.mem_filter]

theorem sum_map_nat_add {α : Type} (f g : α → Nat) (l : List α) :
    (l.map (fun a => f a + g a)).sum = (l.map f).sum + (l.map g).sum := by
  induction l with
  | nil => rfl
  | cons a t ih =>
    simp only [List.map_cons, List.sum_cons, ih]
    omega

theorem sum_indicator_not_mem (keys : List String) (a : String) (ha : a ∉ keys) :
    (keys.map (fun sc => if a == sc then 1 else 0)).sum = 0 := by
  induction keys with
  | nil => rfl
  | cons k t ih =>
    have hak : ¬(a == k) = true := by
      simp only [beq_iff_eq]
      exact fun h => ha (h ▸ List.mem_cons_self _ _)
    simp only [List.map_cons, List.sum_cons, if_neg hak,
      ih (fun h => ha (List.mem_cons_of_mem _ h))]

theorem sum_indicator_nodup (keys : List String) (a : String) (hnd : keys.Nodup)
    (ha : a ∈ keys) :
    (keys.map (fun sc => if a == sc then 1 else 0)).sum = 1 := by
  induction keys with
  | nil => cases ha
  | cons k t ih =>
    rcases List.mem_cons.mp ha with rfl | hat
    · have hnt : a ∉ t := (List.nodup_cons.mp hnd).1
      simp only [List.map_cons, List.sum_cons, beq_self_eq_true, if_pos,
        sum_indicator_not_mem t a hnt]
    · have hak : ¬(a == k) = true := by
        simp only [beq_iff_eq]
        intro h
        exact (List.nodup_cons.mp hnd).1 (h ▸ hat)
      simp only [List.map_cons, List.sum_cons, if_neg hak,
        ih (List.nodup_cons.mp hnd).2 hat]

theorem sum_scope_filter (keys : List String) (store : Store)
    (hnd : keys.Nodup) (hcov : ∀ r ∈ store, r.scope ∈ keys) :
    (keys.map (fun sc => (store.filter (fun r => r.scope == sc)).length)).sum =
      store.length := by
  induction store with
  | nil => simp
  | cons r t ih =>
    have hcov' : ∀ x ∈ t, x.scope ∈ keys :=
      fun x hx => hcov x (List.mem_cons_of_mem _ hx)
    have hr : r.scope ∈ keys := hcov r (List.mem_cons_self _ _)
    have hmap : keys.map (fun sc => ((r :: t).filter (fun x => x.scope == sc)).length) =
        keys.map (fun sc =>
          (if r.scope == sc then 1 else 0) +
            (t.filter (fun x => x.scope == sc)).length) := by
      apply List.map_congr_left
      intro sc _
      by_cases h : r.scope = sc
      · simp only [List.filter_cons, h, beq_self_eq_true, if_pos, List.length_cons]
        omega
      · have hb : ¬(r.scope == sc) = true := by simpa [beq_iff_eq] using h
        simp [List.filter_cons, hb]
    rw [hmap, sum_map_nat_add, sum_indicator_nodup keys r.scope hnd hr, ih hcov']
    simp [Nat.add_comm]

/-- C6: the per-scope counts always add up to the unfiltered listing's
length, and the reported scopes are exactly the distinct scopes present
in the store. -/
theorem count_by_scope_consistency (store : Store) :
    ((count_by_scope store).map (fun e => e.2)).sum = (listRecords none store).length ∧
    (∀ sc, (∃ n, (sc, n) ∈ count_by_scope store) ↔ ∃ r ∈ store, r.scope = sc) := by
  constructor
  · unfold count_by_scope listRecords
    rw [List.map_map]
    exact sum_scope_filter ((store.map (·.scope)).dedup) store (List.nodup_dedup _)
      (fun r hr => List.mem_dedup.mpr (List.mem_map_of_mem _ hr))
  · intro sc
    unfold count_by_scope
    constructor
    · rintro ⟨n, hn⟩
      rcases List.mem_map.mp hn with ⟨sc', hsc', heq⟩
      injection heq with h1 h2
      subst h1
      rcases List.mem_map.mp (List.mem_dedup.mp hsc') with ⟨r, hr, hrs⟩
      exact ⟨r, hr, hrs⟩
    · rintro ⟨r, hr, hrs⟩
      refine ⟨(store.filter (fun x => x.scope == sc)).length, ?_⟩
      exact List.mem_map_of_mem _
        (List.mem_dedup.mpr (List.mem_map.mpr ⟨r, hr, hrs⟩))

/-- C7: planning (`find_invalid_ids` by SELECT) leaves the store exactly
as it was: the same rows in the same order, every id retrieving the same
record, while the plan lists the ids currently classified invalid and
their count. -/
theorem plan_purge_pure (store : Store) :
    (plan_purge store).2 = store ∧
    (∀ i, get i (plan_purge store).2 = get i store) ∧
    (plan_purge store).1.1 = find_invalid_ids store ∧
    (plan_purge store).1.2 = (find_invalid_ids store).length :=
  ⟨rfl, fun _ => rfl, rfl, rfl⟩

theorem mem_allIds (snaps : List Snapshot) (i : String) :
    i ∈ allIds snaps ↔ ∃ sn ∈ snaps, ∃ r ∈ sn, r.id = i := by
  unfold allIds
  rw [List.mem_dedup, List.mem_flatten]
  constructor
  · rintro ⟨ids, hids, hi⟩
    rcases List.mem_map.mp hids with ⟨sn, hsn, rfl⟩
    rcases List.mem_map.mp hi with ⟨r, hr, rfl⟩
    exact ⟨sn, hsn, r, hr, rfl⟩
  · rintro ⟨sn, hsn, r, hr, rfl⟩
    exact ⟨sn.map (·.id), List.mem_map_of_mem _ hsn, List.mem_map_of_mem _ hr⟩

theorem mem_occAux (i : String) (snaps : List Snapshot) :
    ∀ (k0 : Nat) (s : String) (k : Nat),
      (s, k) ∈ occAux i k0 snaps ↔
        ∃ j sn, snaps.get? j = some sn ∧ k = k0 + j ∧
          ∃ r ∈ sn, r.id = i ∧ r.scope = s := by
  induction snaps with
  | nil =>
    intro k0 s k
    simp [occAux]
  | cons sn rest ih =>
    intro k0 s k
    unfold occAux
    rw [List.mem_append]
    constructor
    · rintro (h | h)
      · rcases List.mem_map.mp h with ⟨r, hr, heq⟩
        injection heq with h1 h2
        subst h1
        subst h2
        rcases List.mem_filter.mp hr with ⟨hrm, hrid⟩
        exact ⟨0, sn, rfl, by omega, r, hrm, by simpa [beq_iff_eq] using hrid, rfl⟩
      · rcases (ih (k0 + 1) s k).mp h with ⟨j, sn', hget, hk, hex⟩
        exact ⟨j + 1, sn', by simpa using hget, by omega, hex⟩
    · rintro ⟨j, sn', hget, hk, r, hrm, hrid, hrs⟩
      cases j with
      | zero =>
        left
        have hsn : sn = sn' := by simpa using hget
        subst hsn
        have hk0 : k = k0 := by omega
        subst hk0
        exact List.mem_map.mpr
          ⟨r, List.mem_filter.mpr ⟨hrm, by simp [beq_iff_eq, hrid]⟩, by rw [hrs]⟩
      | succ j' =>
        right
        apply (ih (k0 + 1) s k).mpr
        exact ⟨j', sn', by simpa using hget, by omega, r, hrm, hrid, hrs⟩

/-- C4: `find_duplicate_ids` reports an identifier exactly when it occurs
in at least two snapshots, pairs it with the complete list of its
occurrences — one entry per matching record, carrying that record's
scope and the index of the snapshot it came from — and, being a pure
function of the snapshots, resolves nothing. -/
theorem find_duplicate_ids_reports (snaps : List Snapshot) (i : String) :
    ((∃ occs, (i, occs) ∈ find_duplicate_ids snaps ∧ occs = occurrences i snaps) ↔
      2 ≤ snapsContaining i snaps) ∧
    (∀ s k, (s, k) ∈ occurrences i snaps ↔
      ∃ sn, snaps.get? k = some sn ∧ ∃ r ∈ sn, r.id = i ∧ r.scope = s) := by
  constructor
  · constructor
    · rintro ⟨occs, hmem, -⟩
      rcases List.mem_map.mp hmem with ⟨i', hi', heq⟩
      injection heq with h1 h2
      subst h1
      exact of_decide_eq_true (List.mem_filter.mp hi').2
    · intro h2
      refine ⟨occurrences i snaps, ?_, rfl⟩
      apply List.mem_map_of_mem
      apply List.mem_filter.mpr
      refine ⟨?_, decide_eq_true h2⟩
      have hpos : 0 < (snaps.filter (fun sn => sn.any (fun r => r.id == i))).length := by
        unfold snapsContaining at h2
        omega
      rcases List.exists_mem_of_length_pos hpos with ⟨sn, hsn⟩
      rcases List.mem_filter.mp hsn with ⟨hsnm, hany⟩
      rcases List.any_eq_true.mp hany with ⟨r, hr, hrid⟩
      exact (mem_allIds snaps i).mpr ⟨sn, hsnm, r, hr, by simpa [beq_iff_eq] using hrid⟩
  · intro s k
    unfold occurrences
    rw [mem_occAux i snaps 0 s k]
    constructor
    · rintro ⟨j, sn, hget, hk, hex⟩
      have hjk : j = k := by omega
      subst hjk
      exact ⟨sn, hget, hex⟩
    · rintro ⟨sn, hget, hex⟩
      exact ⟨k, sn, hget, by omega, hex⟩

end MemStore

namespace MemJson

/-- C5 counterexample: `[1, 2]` is well-formed JSON that does not encode
an object; the inspection yields the empty field mapping but no
`MalformedStructuredData` report — the membership test on a list
succeeds quietly, so nothing is caught and nothing is flagged. -/
theorem inspect_array_unflagged_counterexample :
    json_loads "[1, 2]" = some (Json.arr [Json.num "1", Json.num "2"]) ∧
    inspect_json "[1, 2]" = ([], false) :=
  ⟨rfl, rfl⟩

/-- C5 (amended): the JSON step never raises, and scope and content are
produced whatever the payload.  For every payload that is not a
well-formed JSON object the field mapping is empty, and the
`MalformedStructuredData` report (the caught-exception message) appears
exactly when the Python code path raises: always for unparseable input
and for decoded values with no membership test (null, boolean, number);
for an array, exactly when it contains the string `"fields"` as an
element (string indexing of the list then raises `TypeError`); for a
string, exactly when it contains `"fields"` as a substring (string
indexing by a string key then raises `TypeError`). -/
theorem inspect_json_nonobject_characterization (raw : String) :
    (json_loads raw = none → inspect_json raw = ([], true)) ∧
    (json_loads raw = some Json.null → inspect_json raw = ([], true)) ∧
    (∀ b, json_loads raw = some (Json.bool b) → inspect_json raw = ([], true)) ∧
    (∀ lit, json_loads raw = some (Json.num lit) → inspect_json raw = ([], true)) ∧
    (∀ xs, json_loads raw = some (Json.arr xs) →
      inspect_json raw = ([], xs.any isFieldsStr)) ∧
    (∀ s, json_loads raw = some (Json.str s) →
      inspect_json raw = ([], hasSubstr "fields".toList s.toList)) ∧
    (∀ r : MemStore.Row, inspect_record r = (r.scope, r.content, inspect_json r.json_data)) := by
  refine ⟨?_, ?_, ?_, ?_, ?_, ?_, fun r => rfl⟩
  · intro h
    unfold inspect_json
    rw [h]
  · intro h
    unfold inspect_json
    rw [h]
    rfl
  · intro b h
    unfold inspect_json
    rw [h]
    rfl
  · intro lit h
    unfold inspect_json
    rw [h]
    rfl
  · intro xs h
    unfold inspect_json
    rw [h]
    cases hb : xs.any isFieldsStr
    · simp [pyContainsFields, hb]
    · simp [pyContainsFields, pyIndexFields, hb]
  · intro s h
    unfold inspect_json
    rw [h]
    cases hb : hasSubstr "fields".toList s.toList with
    | false =>
      have hb2 : hasSubstr ['f', 'i', 'e', 'l', 'd', 's'] s.data = false := hb
      simp [pyContainsFields, hb, hb2]
    | true =>
      have hb2 : hasSubstr ['f', 'i', 'e', 'l', 'd', 's'] s.data = true := hb
      simp [pyContainsFields, pyIndexFields, hb, hb2]

/-- C5 witness: the spec's example payload is rejected by `json.loads`
and recovered as the empty mapping with the malformed-data report. -/
theorem inspect_json_nonobject_witness :
    inspect_json "\x7bnot json" = ([], true) :=
  (inspect_json_nonobject_characterization "\x7bnot json").1 rfl

end MemJson

namespace MemFiles

/-- C8: loading an absent memory returns normally with the caller-visible
"not found" message instead of raising. -/
theorem load_memory_absent_message (name : String) (fs : Fs)
    (h : fsLookup (memory_file_name name) fs = none) :
    load_memory name fs =
      "Memory file " ++ name ++
        " not found, consider creating it with the `write_memory` tool if you need it." := by
  unfold load_memory
  rw [h]

/-- C8 witness: loading from an empty memories directory. -/
theorem load_memory_absent_witness :
    fsLookup (memory_file_name "project-notes") [] = none ∧
    load_memory "project-notes" [] =
      "Memory file project-notes not found, consider creating it with the `write_memory` tool if you need it." :=
  ⟨rfl, load_memory_absent_message "project-notes" [] rfl⟩

/-- C9: the manager identifies names up to deletion of every `.md`
occurrence — saving under `n` and loading under `n'` returns the saved
content whenever the two names strip to the same string. -/
theorem save_load_md_insensitive (n n' c : String) (fs : Fs)
    (h : stripMd n.toList = stripMd n'.toList) :
    load_memory n' (save_memory n c fs).2 = c := by
  have hp : memory_file_name n' = memory_file_name n := by
    unfold memory_file_name
    rw [h]
  unfold load_memory save_memory fsWrite fsLookup
  rw [hp]
  simp

/-- C9 witness: `x.md` and `x` are interchangeable in both directions. -/
theorem save_load_md_insensitive_witness :
    stripMd ("x.md").toList = stripMd ("x").toList ∧
    load_memory "x" (save_memory "x.md" "hello" []).2 = "hello" ∧
    load_memory "x.md" (save_memory "x" "hi" []).2 = "hi" :=
  ⟨rfl, save_load_md_insensitive "x.md" "x" "hello" [] rfl,
    save_load_md_insensitive "x" "x.md" "hi" [] rfl⟩

theorem fsLookup_fsErase (k : String) (fs : Fs) :
    fsLookup k (fsErase k fs) = none := by
  induction fs with
  | nil => rfl
  | cons p t ih =>
    unfold fsErase at ih ⊢
    unfold fsLookup at ih ⊢
    by_cases h : p.1 = k
    · simp only [List.filter_cons, h, bne_self_eq_false, Bool.false_eq_true,
        if_neg, not_false_eq_true]
      exact ih
    · have hb : (p.1 != k) = true := by simpa using h
      simp only [List.filter_cons, hb, if_pos]
      rw [List.find?_cons_of_neg]
      · exact ih
      · simpa using h
    
/-- C10: `delete_memory` raises when no memory file with the normalized
name exists — it is not an idempotent no-op — so a second call in a row
always fails, whatever the starting state. -/
theorem delete_memory_raises_twice (name : String) (fs : Fs) :
    (fsLookup (memory_file_name name) fs = none →
      isError (delete_memory name fs) = true) ∧
    isError (delete_memory name (afterDelete name fs)) = true := by
  constructor
  · intro h
    unfold delete_memory
    rw [h]
    rfl
  · unfold afterDelete
    rcases hl : fsLookup (memory_file_name name) fs with - | v
    · have hd : delete_memory name fs =
          Except.error ("FileNotFoundError: " ++ memory_file_name name) := by
        unfold delete_memory
        rw [hl]
      rw [hd, hd]
      rfl
    · have hd : delete_memory name fs =
          Except.ok ("Memory " ++ name ++ " deleted.",
            fsErase (memory_file_name name) fs) := by
        unfold delete_memory
        rw [hl]
      rw [hd]
      unfold delete_memory
      rw [fsLookup_fsErase]
      rfl

/-- C10 witness: deleting an absent memory raises, and deleting the same
memory twice in a row raises on the second call. -/
theorem delete_memory_raises_twice_witness :
    isError (delete_memory "y" [("x.md", "c")]) = true ∧
    isError (delete_memory "x" (afterDelete "x" [("x.md", "c")])) = true :=
  ⟨(delete_memory_raises_twice "y" [("x.md", "c")]).1 rfl,
    (delete_memory_raises_twice "x" [("x.md", "c")]).2⟩

end MemFiles
